import Mathlib

/-!
Verification of the shift-tracking bot (`sse-evn/ugm_time_wait`).

The source is a set of near-duplicate Telegram bots (`src/table.js`,
three variants separated by document markers, plus `src/unnamed/part_000`
and `src/unnamed/part_001`).  This file gives a shallow embedding of the
shift data model, the time/validation utilities, the caption matcher, the
photo-registration handler, the admin confirm handler, the daily
auto-completion trigger and the day-off (absence-marking) trigger, and
settles the specification claims against them.

JavaScript strings are modelled as Lean `String`s; the JS `<` comparison,
`trim`, `split`, `replace` and `Number` primitives are modelled by explicit
character-list functions below.  Database rows are a `List Shift`; each SQL
query of the handlers is translated to the corresponding `filter` /
`find?` / `map` over that list.
-/

namespace Ugm

/-! ## JS string primitives -/

/-- JS `String.prototype.toLowerCase` restricted to the character classes the
caption regexes use with the `i` flag: ASCII letters and the Cyrillic range
`А`..`Я` (both map to their lowercase forms by adding 0x20). -/
def jsToLower (c : Char) : Char :=
  if 65 ≤ c.toNat ∧ c.toNat ≤ 90 then Char.ofNat (c.toNat + 32)
  else if 1040 ≤ c.toNat ∧ c.toNat ≤ 1071 then Char.ofNat (c.toNat + 32)
  else c

/-- The whitespace class of JS `\s` / `trim` (ASCII part: space, tab, LF, CR,
vertical tab, form feed). -/
def isJsWhitespace (c : Char) : Bool :=
  c = ' ' || c = '\t' || c = '\n' || c = '\r' || c.toNat = 11 || c.toNat = 12

/-- JS `\d`: a decimal digit. -/
def isDigit (c : Char) : Bool :=
  48 ≤ c.toNat && c.toNat ≤ 57

/-- JS `String.prototype.trim`: strip whitespace from both ends. -/
def jsTrim (s : String) : String :=
  String.mk (((s.data.dropWhile isJsWhitespace).reverse.dropWhile isJsWhitespace).reverse)

/-- JS `String.prototype.split(sep)` for a one-character separator. -/
def splitOnChar (sep : Char) : List Char → List (List Char)
  | [] => [[]]
  | c :: cs =>
    if c = sep then [] :: splitOnChar sep cs
    else
      match splitOnChar sep cs with
      | [] => [[c]]
      | g :: gs => (c :: g) :: gs

/-- JS `String.prototype.replace('@', '')`: remove the first occurrence of
`@` (the admin-handle normalisation in the source). -/
def removeFirstAt : List Char → List Char
  | [] => []
  | c :: cs => if c = '@' then cs else c :: removeFirstAt cs

/-- The form `username.replace('@', '')` lifted to `String`. -/
def stripAt (s : String) : String :=
  String.mk (removeFirstAt s.data)

/-- JS `Number(s)` on a string of decimal digits. -/
def digitsToNat (cs : List Char) : Nat :=
  cs.foldl (fun acc c => acc * 10 + (c.toNat - 48)) 0

/-- JS string comparison `a < b` (lexicographic by code unit) on character
lists. -/
def charListLt : List Char → List Char → Bool
  | [], [] => false
  | [], _ :: _ => true
  | _ :: _, [] => false
  | a :: as, b :: bs =>
    if a < b then true
    else if b < a then false
    else charListLt as bs

/-- JS string comparison `a < b`, as used by the overlap test
`startTime < shift.end_time` in the photo handler. -/
def strLt (a b : String) : Bool :=
  charListLt a.data b.data

/-! ## Time and validation utilities (src/table.js lines 90-97) -/

/-- Source `isValidTime`: the regex `^([01]\d|2[0-3]):([0-5]\d)$`. -/
def isValidTime (time : String) : Bool :=
  match time.data with
  | [h1, h2, c, m1, m2] =>
    ((h1 = '0' || h1 = '1') && isDigit h2 ||
     h1 = '2' && (48 ≤ h2.toNat && h2.toNat ≤ 51)) &&
    c = ':' &&
    (48 ≤ m1.toNat && m1.toNat ≤ 53) &&
    isDigit m2
  | _ => false

/-- Source `calculateWorkedHours(start, end)`: split both on `:`, convert with
`Number`, subtract minutes, add `24 * 60` when negative, and render as
`` `${Math.floor(minutes / 60)}h ${minutes % 60}m` ``.  JS `Math.floor` of a
real quotient is floor division (`Int.fdiv`) and JS `%` keeps the dividend's
sign (`Int.tmod`). -/
def calculateWorkedHours (startStr endStr : String) : String :=
  let sParts := splitOnChar ':' startStr.data
  let eParts := splitOnChar ':' endStr.data
  let sh := digitsToNat (sParts.headD [])
  let sm := digitsToNat (sParts.getD 1 [])
  let eh := digitsToNat (eParts.headD [])
  let em := digitsToNat (eParts.getD 1 [])
  let minutes0 : Int := ((eh * 60 + em : Nat) : Int) - ((sh * 60 + sm : Nat) : Int)
  let minutes : Int := if minutes0 < 0 then minutes0 + 24 * 60 else minutes0
  toString (Int.fdiv minutes 60) ++ "h " ++ toString (Int.tmod minutes 60) ++ "m"

/-- The minute of day denoted by a valid `HH:MM` string, defined directly from
its digit characters (specification-side meaning of the time string). -/
def minutesOfDay (s : String) : Nat :=
  match s.data with
  | [h1, h2, _, m1, m2] =>
    (10 * (h1.toNat - 48) + (h2.toNat - 48)) * 60 +
      (10 * (m1.toNat - 48) + (m2.toNat - 48))
  | _ => 0

/-! ## Access control (src/table.js line 85 and config load line 44) -/

/-- Source `isAdmin(username, adminUsernames)`:
`adminUsernames.includes(username.replace('@', ''))`. -/
def isAdmin (username : String) (adminUsernames : List String) : Bool :=
  adminUsernames.contains (stripAt username)

/-- The admin-list normalisation at config load (src/table.js line 44):
`adminUsernames.split(',').map(u => u.trim().replace('@', ''))`. -/
def parseAdmins (s : String) : List String :=
  (splitOnChar ',' s.data).map (fun cs => stripAt (jsTrim (String.mk cs)))

/-- Case normalisation of a whole handle, modelled from the spec's words
("case-normalized membership test") for comparison with the source
behaviour. -/
def jsToLowerStr (s : String) : String :=
  String.mk (s.data.map jsToLower)

/-! ## Data model: one row of the `shifts` table -/

structure Shift where
  id : Nat
  group_id : String
  username : String
  full_name : String
  shift_date : String
  start_time : String
  end_time : String
  actual_end_time : Option String
  worked_hours : Option String
  zone : String
  witag : String
  status : String
  deriving Repr, DecidableEq

/-! ## Caption matcher

The photo handlers of all `table.js` variants match the caption against
`/^([^\n]+)\n(\d{2}:\d{2})\s(\d{2}:\d{2})\n(Зона\s+\d+)(?:\n(W\s+witag\s+\d+))?/i`
(anchored at the start only — there is no `$`).  The parser below is a
deterministic rendering of that regex: each quantifier is greedy and never
needs backtracking because the character classes that follow it are
disjoint from the repeated class. -/

structure CapMatch where
  name : String
  startTime : String
  endTime : String
  zone : String
  witag : Option String
  deriving Repr, DecidableEq

/-- Match a literal pattern case-insensitively (`i` flag), returning the
actually matched characters and the rest. -/
def matchCI : List Char → List Char → Option (List Char × List Char)
  | [], cs => some ([], cs)
  | _ :: _, [] => none
  | p :: ps, c :: cs =>
    if jsToLower c = jsToLower p then
      match matchCI ps cs with
      | some (m, rest) => some (c :: m, rest)
      | none => none
    else none

/-- Regex fragment `\d{2}:\d{2}`: a time token. -/
def parseTimeToken : List Char → Option (String × List Char)
  | d1 :: d2 :: c :: d3 :: d4 :: rest =>
    if isDigit d1 && isDigit d2 && c = ':' && isDigit d3 && isDigit d4 then
      some (String.mk [d1, d2, c, d3, d4], rest)
    else none
  | _ => none

/-- Regex fragment `\s+` followed by `\d+` (both greedy, both nonempty), as in
`Зона\s+\d+`; returns the matched characters. -/
def parseSpacesDigits (cs : List Char) : Option (List Char × List Char) :=
  let ws := cs.takeWhile isJsWhitespace
  let rest1 := cs.dropWhile isJsWhitespace
  if ws.isEmpty then none
  else
    let ds := rest1.takeWhile isDigit
    let rest2 := rest1.dropWhile isDigit
    if ds.isEmpty then none
    else some (ws ++ ds, rest2)

/-- The optional tail `(?:\n(W\s+witag\s+\d+))?`; returns the captured group
when the whole group matches, else `none` (the group is skipped). -/
def parseWitagGroup (cs : List Char) : Option String :=
  match cs with
  | '\n' :: rest =>
    match rest with
    | w :: rest1 =>
      if jsToLower w = 'w' then
        let ws1 := rest1.takeWhile isJsWhitespace
        let rest2 := rest1.dropWhile isJsWhitespace
        if ws1.isEmpty then none
        else
          match matchCI "witag".data rest2 with
          | some (mw, rest3) =>
            match parseSpacesDigits rest3 with
            | some (sd, _) => some (String.mk (w :: ws1 ++ mw ++ sd))
            | none => none
          | none => none
      else none
    | [] => none
  | _ => none

/-- The whole caption regex (start-anchored, not end-anchored: trailing input
after the match is ignored, exactly as in the source). -/
def matchCaption (caption : String) : Option CapMatch :=
  let cs := caption.data
  let name := cs.takeWhile (fun c => c ≠ '\n')
  let rest0 := cs.dropWhile (fun c => c ≠ '\n')
  if name.isEmpty then none
  else
    match rest0 with
    | '\n' :: rest1 =>
      match parseTimeToken rest1 with
      | some (t1, rest2) =>
        match rest2 with
        | c :: rest3 =>
          if isJsWhitespace c then
            match parseTimeToken rest3 with
            | some (t2, rest4) =>
              match rest4 with
              | '\n' :: rest5 =>
                match matchCI "Зона".data rest5 with
                | some (mz, rest6) =>
                  match parseSpacesDigits rest6 with
                  | some (sd, rest7) =>
                    some { name := String.mk name, startTime := t1, endTime := t2,
                           zone := String.mk (mz ++ sd),
                           witag := parseWitagGroup rest7 }
                  | none => none
                | none => none
              | _ => none
            | none => none
          else none
        | [] => none
      | none => none
    | _ => none

/-! ## Handlers -/

/-- Replies of the photo-registration handler (src/table.js lines 422-532).
The Google-Sheets mirror writes and the Markdown formatting are I/O glue
outside this model; the constructors carry the data the reply interpolates. -/
inductive PhotoReply where
  | noUsername
  | noCaption
  | formatErr
  | timeFormatErr
  | overlapErr (exStart exEnd : String)
  | registered (fullName shiftDate startTime endTime zone witag : String)
  deriving Repr, DecidableEq

/-- The row inserted by
`INSERT INTO shifts (group_id, username, full_name, photo_file_id, shift_date,
start_time, end_time, zone, witag)` — `status` defaults to `'active'`,
`actual_end_time` and `worked_hours` to `NULL`. -/
def mkNewShift (nextId : Nat) (groupId username fullName shiftDate startTime endTime zone witag : String) : Shift :=
  { id := nextId, group_id := groupId, username := username, full_name := fullName,
    shift_date := shiftDate, start_time := startTime, end_time := endTime,
    actual_end_time := none, worked_hours := none, zone := zone, witag := witag,
    status := "active" }

/-- The predicate of
`SELECT ... FROM shifts WHERE username = ? AND shift_date = ? AND group_id = ?`. -/
def sameUserDateGroup (username shiftDate groupId : String) (sh : Shift) : Bool :=
  sh.username = username && sh.shift_date = shiftDate && sh.group_id = groupId

/-- The overlap test of the photo handler:
`(startTime < shift.end_time) && (endTime > shift.start_time)` under JS
string comparison. -/
def overlapsWith (startTime endTime : String) (sh : Shift) : Bool :=
  strLt startTime sh.end_time && strLt sh.start_time endTime

/-- Handler `bot.on('photo')` (src/table.js lines 422-532): caption match, time
validation, overlap check against all shifts of the same
(username, shift_date, group_id) — with no status filter — and insert.
`nextId` is the autoincrement id the insert would receive. -/
def handlePhoto (username groupId shiftDate caption : String) (nextId : Nat)
    (state : List Shift) : PhotoReply × List Shift :=
  if username = "" then (PhotoReply.noUsername, state)
  else if caption = "" then (PhotoReply.noCaption, state)
  else
    match matchCaption caption with
    | none => (PhotoReply.formatErr, state)
    | some m =>
      let fullName := jsTrim m.name
      let startTime := m.startTime
      let endTime := m.endTime
      let zone := jsTrim m.zone
      let witag := match m.witag with
        | some w => jsTrim w
        | none => "Нет"
      if !(isValidTime startTime && isValidTime endTime) then
        (PhotoReply.timeFormatErr, state)
      else
        let existingShifts := state.filter (sameUserDateGroup username shiftDate groupId)
        match existingShifts.find? (overlapsWith startTime endTime) with
        | some sh => (PhotoReply.overlapErr sh.start_time sh.end_time, state)
        | none =>
          (PhotoReply.registered fullName shiftDate startTime endTime zone witag,
           state ++ [mkNewShift nextId groupId username fullName shiftDate startTime endTime zone witag])

/-- Replies of the admin confirm handler. -/
inductive ActionReply where
  | denied
  | updateErr
  | notFound
  | completedOk (shiftId : Nat)
  deriving Repr, DecidableEq

/-- Handler `bot.action(/^confirm_action_(\d+)$/)` of variant 1 (src/table.js lines
797-847): admin gate, `SELECT ... WHERE id = ? AND group_id = ?`, recompute
worked hours from the scheduled times, then unconditionally
`UPDATE shifts SET status = 'completed', worked_hours = ? WHERE id = ? AND
group_id = ?`.  There is no status filter anywhere.  A missing row makes the
JS throw on `shift.start_time` and land in the catch block (`updateErr`). -/
def confirm_action (username : Option String) (admins : List String)
    (groupId : String) (shiftId : Nat) (state : List Shift) : ActionReply × List Shift :=
  match username with
  | none => (ActionReply.denied, state)
  | some u =>
    if !isAdmin u admins then (ActionReply.denied, state)
    else
      match state.find? (fun sh => sh.id = shiftId && sh.group_id = groupId) with
      | none => (ActionReply.updateErr, state)
      | some sh =>
        let workedHours := calculateWorkedHours sh.start_time sh.end_time
        (ActionReply.completedOk shiftId,
         state.map (fun r =>
           if r.id = shiftId && r.group_id = groupId then
             { r with status := "completed", worked_hours := some workedHours }
           else r))

/-- The row-selection predicate of the auto-completion cron:
`SELECT ... WHERE status = 'active' AND shift_date = ? AND group_id = ?`. -/
def activeOnDate (shiftDate groupId : String) (sh : Shift) : Bool :=
  sh.status = "active" && sh.shift_date = shiftDate && sh.group_id = groupId

/-- The row-level effect of `UPDATE shifts SET status = 'completed',
worked_hours = ? WHERE id = ? AND group_id = ?` issued for the selected shift
`sh`: rows matching the WHERE clause are completed with hours computed from
`sh`'s scheduled times, all others are untouched. -/
def applyUpd (groupId : String) (sh r : Shift) : Shift :=
  if r.id = sh.id && r.group_id = groupId then
    { r with status := "completed",
             worked_hours := some (calculateWorkedHours sh.start_time sh.end_time) }
  else r

/-- One `UPDATE shifts SET status = 'completed', worked_hours = ? WHERE
id = ? AND group_id = ?` of the auto-completion loop. -/
def completeOne (groupId : String) (st : List Shift) (sh : Shift) : List Shift :=
  st.map (applyUpd groupId sh)

/-- The daily auto-completion trigger `cron.schedule('5 23 * * *')`
(src/table.js lines 879-922, src/unnamed/part_001 lines 629-664): select the
still-active shifts of the group for the current date, then complete each
with hours computed from its scheduled start/end. -/
def autoCompleteShifts (groupId shiftDate : String) (state : List Shift) : List Shift :=
  let shifts := state.filter (activeOnDate shiftDate groupId)
  shifts.foldl (completeOne groupId) state

/-- The absence marker appended by the day-off cron:
`` `${shiftDate} (выходной)` ``. -/
def dayOffMarker (shiftDate : String) : String :=
  shiftDate ++ " (выходной)"

/-- The per-employee-row body of the day-off cron `cron.schedule('16 18 * * *')`
(src/table.js lines 372-420, src/unnamed/part_001 lines 179-227):
`existingDates = (row[5] || '').split(',').map(s => s.trim())`; skip when the
employee had shifts today or the marker is already present; otherwise push the
marker and write back `existingDates.join('\n')`.  Returns `none` for the
`continue` (no write) and `some cell` for the written dates cell. -/
def dayOffProcessRow (shiftDate : String) (hadShifts : Bool) (datesCell : String) : Option String :=
  let existingDates := (splitOnChar ',' datesCell.data).map (fun cs => jsTrim (String.mk cs))
  if hadShifts || existingDates.contains (dayOffMarker shiftDate) then none
  else some (String.intercalate "\n" (existingDates ++ [dayOffMarker shiftDate]))

/-- The duration in minutes described by the specification: the minute-of-day
difference, with 1440 minutes added first when the end is earlier than the
start (overnight wrap). -/
def workedMinutes (startStr endStr : String) : Nat :=
  if minutesOfDay endStr < minutesOfDay startStr then
    minutesOfDay endStr + 1440 - minutesOfDay startStr
  else
    minutesOfDay endStr - minutesOfDay startStr

/-! ## Character and comparison lemmas -/

lemma charLt_iff (a b : Char) : a < b ↔ a.toNat < b.toNat := Iff.rfl

lemma charListLt_irrefl (l : List Char) : charListLt l l = false := by
  induction l with
  | nil => rfl
  | cons a as ih => simp [charListLt, ih]

lemma strLt_irrefl (s : String) : strLt s s = false :=
  charListLt_irrefl s.data

/-- Decomposition of a string accepted by `isValidTime` into its digit
characters, with the numeric ranges the regex guarantees. -/
lemma isValidTime_spec (s : String) (h : isValidTime s = true) :
    ∃ a b c d : Char, s.data = [a, b, ':', c, d] ∧
      48 ≤ a.toNat ∧ a.toNat ≤ 50 ∧
      48 ≤ b.toNat ∧ b.toNat ≤ 57 ∧
      48 ≤ c.toNat ∧ c.toNat ≤ 53 ∧
      48 ≤ d.toNat ∧ d.toNat ≤ 57 ∧
      10 * (a.toNat - 48) + (b.toNat - 48) ≤ 23 := by
  rcases hd : s.data with _ | ⟨a, rest1⟩
  · simp [isValidTime, hd] at h
  rcases rest1 with _ | ⟨b, rest2⟩
  · simp [isValidTime, hd] at h
  rcases rest2 with _ | ⟨c, rest3⟩
  · simp [isValidTime, hd] at h
  rcases rest3 with _ | ⟨m1, rest4⟩
  · simp [isValidTime, hd] at h
  rcases rest4 with _ | ⟨m2, rest5⟩
  · simp [isValidTime, hd] at h
  rcases rest5 with _ | ⟨x, rest6⟩
  swap
  · simp [isValidTime, hd] at h
  simp only [isValidTime, hd, isDigit, Bool.and_eq_true, Bool.or_eq_true,
    decide_eq_true_eq] at h
  obtain ⟨⟨⟨hX, hc⟩, hm1⟩, hm2⟩ := h
  subst hc
  rcases hX with ⟨ha, hb⟩ | ⟨ha, hb⟩
  · rcases ha with ha | ha <;> subst ha
    · refine ⟨'0', b, m1, m2, rfl, by decide, by decide, hb.1, hb.2, hm1.1, hm1.2, hm2.1,
        hm2.2, ?_⟩
      have h0 : ('0' : Char).toNat = 48 := rfl
      omega
    · refine ⟨'1', b, m1, m2, rfl, by decide, by decide, hb.1, hb.2, hm1.1, hm1.2, hm2.1,
        hm2.2, ?_⟩
      have h1 : ('1' : Char).toNat = 49 := rfl
      omega
  · subst ha
    refine ⟨'2', b, m1, m2, rfl, by decide, by decide, hb.1, by omega, hm1.1, hm1.2, hm2.1,
      hm2.2, ?_⟩
    have h2 : ('2' : Char).toNat = 50 := rfl
    omega

/-! ## Worked-duration lemmas -/

lemma splitOnChar_colon_time (a b c d : Char) (ha : a ≠ ':') (hb : b ≠ ':')
    (hc : c ≠ ':') (hd : d ≠ ':') :
    splitOnChar ':' [a, b, ':', c, d] = [[a, b], [c, d]] := by
  simp [splitOnChar, ha, hb, hc, hd]

lemma digitsToNat_pair (a b : Char) :
    digitsToNat [a, b] = 10 * (a.toNat - 48) + (b.toNat - 48) := by
  simp [digitsToNat]
  omega

lemma ne_colon_of_digit {a : Char} (h1 : 48 ≤ a.toNat) (h2 : a.toNat ≤ 57) : a ≠ ':' := by
  intro h
  subst h
  simp at h2

lemma fdiv_natCast_sixty (m : Nat) :
    Int.fdiv ((m : Nat) : Int) 60 = ((m / 60 : Nat) : Int) := by
  cases m with
  | zero => simp [Int.fdiv]
  | succ k => rfl

lemma tmod_natCast_sixty (m : Nat) :
    Int.tmod ((m : Nat) : Int) 60 = ((m % 60 : Nat) : Int) := rfl

lemma toString_natCast (m : Nat) : toString ((m : Nat) : Int) = toString m := rfl

/-- Rendering helper: the Int-side minute computation of the source and the
Nat-side duration of the spec render to the same string when the start minute
is a genuine minute of day (< 1440). -/
lemma render_minutes_eq (S E D : Nat) (hD : D = if E < S then E + 1440 - S else E - S)
    (hS : S < 1440) :
    toString ((if ((E : Nat) : Int) - ((S : Nat) : Int) < 0 then
        ((E : Nat) : Int) - ((S : Nat) : Int) + 24 * 60
      else ((E : Nat) : Int) - ((S : Nat) : Int)).fdiv 60) ++ "h " ++
    toString ((if ((E : Nat) : Int) - ((S : Nat) : Int) < 0 then
        ((E : Nat) : Int) - ((S : Nat) : Int) + 24 * 60
      else ((E : Nat) : Int) - ((S : Nat) : Int)).tmod 60) ++ "m" =
    toString (D / 60) ++ "h " ++ toString (D % 60) ++ "m" := by
  have h1 : (if ((E : Nat) : Int) - ((S : Nat) : Int) < 0 then
        ((E : Nat) : Int) - ((S : Nat) : Int) + 24 * 60
      else ((E : Nat) : Int) - ((S : Nat) : Int)) = ((D : Nat) : Int) := by
    rcases Nat.lt_or_ge E S with h2 | h2 <;>
      simp only [hD, if_pos h2, if_neg (Nat.not_lt.mpr h2)] <;> split <;> omega
  rw [h1, fdiv_natCast_sixty, tmod_natCast_sixty, toString_natCast, toString_natCast]

/-- On valid `HH:MM` strings `calculateWorkedHours` renders exactly the
spec-side duration `workedMinutes`. -/
lemma calculateWorkedHours_eq (s e : String)
    (hs : isValidTime s = true) (he : isValidTime e = true) :
    calculateWorkedHours s e =
      toString (workedMinutes s e / 60) ++ "h " ++ toString (workedMinutes s e % 60) ++ "m" := by
  obtain ⟨a1, b1, c1, d1, hd1, ha1l, ha1r, hb1l, hb1r, hc1l, hc1r, hd1l, hd1r, hh1⟩ :=
    isValidTime_spec s hs
  obtain ⟨a2, b2, c2, d2, hd2, ha2l, ha2r, hb2l, hb2r, hc2l, hc2r, hd2l, hd2r, hh2⟩ :=
    isValidTime_spec e he
  have hsplit1 : splitOnChar ':' s.data = [[a1, b1], [c1, d1]] := by
    rw [hd1]
    exact splitOnChar_colon_time _ _ _ _ (ne_colon_of_digit ha1l (by omega))
      (ne_colon_of_digit hb1l hb1r) (ne_colon_of_digit hc1l (by omega))
      (ne_colon_of_digit hd1l hd1r)
  have hsplit2 : splitOnChar ':' e.data = [[a2, b2], [c2, d2]] := by
    rw [hd2]
    exact splitOnChar_colon_time _ _ _ _ (ne_colon_of_digit ha2l (by omega))
      (ne_colon_of_digit hb2l hb2r) (ne_colon_of_digit hc2l (by omega))
      (ne_colon_of_digit hd2l hd2r)
  have hmod1 : minutesOfDay s =
      (10 * (a1.toNat - 48) + (b1.toNat - 48)) * 60 + (10 * (c1.toNat - 48) + (d1.toNat - 48)) := by
    simp [minutesOfDay, hd1]
  have hmod2 : minutesOfDay e =
      (10 * (a2.toNat - 48) + (b2.toNat - 48)) * 60 + (10 * (c2.toNat - 48) + (d2.toNat - 48)) := by
    simp [minutesOfDay, hd2]
  simp only [calculateWorkedHours, hsplit1, hsplit2]
  simp only [List.headD, List.getD, List.get?, Option.getD]
  apply render_minutes_eq
  · unfold workedMinutes
    rw [hmod1, hmod2, digitsToNat_pair, digitsToNat_pair, digitsToNat_pair, digitsToNat_pair]
  · rw [digitsToNat_pair, digitsToNat_pair]
    omega

/-! ## Lexicographic comparison versus minute-of-day -/

lemma charListLt_cons_iff (a b : Char) (as bs : List Char) :
    charListLt (a :: as) (b :: bs) = true ↔
      (a.toNat < b.toNat ∨ (a.toNat = b.toNat ∧ charListLt as bs = true)) := by
  simp only [charListLt]
  rcases Nat.lt_trichotomy a.toNat b.toNat with h | h | h
  · rw [if_pos ((charLt_iff a b).mpr h)]
    simp [h]
  · have h1 : ¬ a < b := by rw [charLt_iff]; omega
    have h2 : ¬ b < a := by rw [charLt_iff]; omega
    rw [if_neg h1, if_neg h2]
    simp [h]
  · have h1 : ¬ a < b := by rw [charLt_iff]; omega
    rw [if_neg h1, if_pos ((charLt_iff b a).mpr h)]
    constructor
    · intro hc
      cases hc
    · intro hc
      rcases hc with hc | ⟨hc, _⟩ <;> omega

lemma charListLt_nil_iff : (charListLt [] [] = true) ↔ False := by
  simp [charListLt]

/-- Claim C5: for all valid `HH:MM` strings, `calculateWorkedHours` returns
the end-minus-start difference in minutes — with 1440 minutes added first
when the end is lexicographically/numerically earlier than the start — rendered
as `Xh Ym` with `X` the quotient and `Y` the remainder by 60; it yields exactly
`0h 0m` when start equals end, and never an empty result. -/
theorem claim_C5_worked_duration (s e : String)
    (hs : isValidTime s = true) (he : isValidTime e = true) :
    calculateWorkedHours s e =
      toString (workedMinutes s e / 60) ++ "h " ++ toString (workedMinutes s e % 60) ++ "m" ∧
    (s = e → calculateWorkedHours s e = "0h 0m") ∧
    calculateWorkedHours s e ≠ "" := by
  refine ⟨calculateWorkedHours_eq s e hs he, ?_, ?_⟩
  · intro h
    subst h
    rw [calculateWorkedHours_eq s s hs hs]
    have h0 : workedMinutes s s = 0 := by
      unfold workedMinutes
      simp
    rw [h0]
    decide
  · rw [calculateWorkedHours_eq s e hs he]
    intro hcontra
    have hlen := congrArg String.length hcontra
    simp only [String.length_append] at hlen
    have hm : ("m" : String).length = 1 := rfl
    have hh : ("h " : String).length = 2 := rfl
    have he0 : ("" : String).length = 0 := rfl
    omega

/-- Witness for C5 at concrete inputs: scheduled `07:00`-`13:45` gives
`6h 45m`, and a zero-length interval renders `0h 0m`. -/
theorem claim_C5_witness :
    isValidTime "07:00" = true ∧ isValidTime "13:45" = true ∧
    calculateWorkedHours "07:00" "13:45" = "6h 45m" ∧
    calculateWorkedHours "07:00" "07:00" = "0h 0m" := by
  have h1 := claim_C5_worked_duration "07:00" "13:45" (by decide) (by decide)
  have h2 := claim_C5_worked_duration "07:00" "07:00" (by decide) (by decide)
  refine ⟨by decide, by decide, ?_, h2.2.1 rfl⟩
  rw [h1.1]
  decide

/-- Claim C10: on strings accepted by `isValidTime`, the JS lexicographic
string comparison used by the registration path's overlap test coincides with
comparison of the denoted minutes of day. -/
theorem claim_C10_lex_order (s t : String)
    (hs : isValidTime s = true) (ht : isValidTime t = true) :
    (strLt s t = true ↔ minutesOfDay s < minutesOfDay t) := by
  obtain ⟨a1, b1, c1, d1, hd1, ha1l, ha1r, hb1l, hb1r, hc1l, hc1r, hd1l, hd1r, hh1⟩ :=
    isValidTime_spec s hs
  obtain ⟨a2, b2, c2, d2, hd2, ha2l, ha2r, hb2l, hb2r, hc2l, hc2r, hd2l, hd2r, hh2⟩ :=
    isValidTime_spec t ht
  have hm1 : minutesOfDay s =
      (10 * (a1.toNat - 48) + (b1.toNat - 48)) * 60 + (10 * (c1.toNat - 48) + (d1.toNat - 48)) := by
    simp [minutesOfDay, hd1]
  have hm2 : minutesOfDay t =
      (10 * (a2.toNat - 48) + (b2.toNat - 48)) * 60 + (10 * (c2.toNat - 48) + (d2.toNat - 48)) := by
    simp [minutesOfDay, hd2]
  rw [hm1, hm2]
  simp only [strLt, hd1, hd2, charListLt_cons_iff, charListLt_nil_iff, and_false, or_false,
    lt_self_iff_false, eq_self_iff_true, true_and, false_or]
  omega

/-- Witness for C10 at a concrete input where digit-by-digit comparison
crosses a tens boundary: `09:59` versus `10:00`. -/
theorem claim_C10_witness :
    strLt "09:59" "10:00" = true ∧ minutesOfDay "09:59" < minutesOfDay "10:00" := by
  have h := claim_C10_lex_order "09:59" "10:00" (by decide) (by decide)
  exact ⟨by decide, h.mp (by decide)⟩

/-! ## Registration and the overlap gate -/

/-- Claim C1: on a matched caption with valid times, the new shift is
persisted if and only if no already-stored shift of the same
(group, submitter, shift_date) — with no status filter, so completed and
canceled shifts still occupy their slot — satisfies
`new.start < existing.end` and `new.end > existing.start` under string
comparison; on a conflict the reply names the conflicting interval and
nothing is inserted; an exactly touching shift never counts as a conflict. -/
theorem claim_C1_overlap_gate (username groupId shiftDate caption : String) (nextId : Nat)
    (state : List Shift) (m : CapMatch)
    (hu : username ≠ "") (hc : caption ≠ "") (hm : matchCaption caption = some m)
    (hv : (isValidTime m.startTime && isValidTime m.endTime) = true) :
    ((∀ sh ∈ state, sameUserDateGroup username shiftDate groupId sh = true →
        overlapsWith m.startTime m.endTime sh = false) →
      handlePhoto username groupId shiftDate caption nextId state =
        (PhotoReply.registered (jsTrim m.name) shiftDate m.startTime m.endTime (jsTrim m.zone)
            (match m.witag with | some w => jsTrim w | none => "Нет"),
         state ++ [mkNewShift nextId groupId username (jsTrim m.name) shiftDate m.startTime
            m.endTime (jsTrim m.zone)
            (match m.witag with | some w => jsTrim w | none => "Нет")])) ∧
    ((∃ sh ∈ state, sameUserDateGroup username shiftDate groupId sh = true ∧
        overlapsWith m.startTime m.endTime sh = true) →
      (handlePhoto username groupId shiftDate caption nextId state).2 = state ∧
      ∃ ex ∈ state, sameUserDateGroup username shiftDate groupId ex = true ∧
        overlapsWith m.startTime m.endTime ex = true ∧
        (handlePhoto username groupId shiftDate caption nextId state).1 =
          PhotoReply.overlapErr ex.start_time ex.end_time) ∧
    (∀ ex : Shift, ex.end_time = m.startTime ∨ m.endTime = ex.start_time →
      overlapsWith m.startTime m.endTime ex = false) := by
  have hred : handlePhoto username groupId shiftDate caption nextId state =
      (match (state.filter (sameUserDateGroup username shiftDate groupId)).find?
          (overlapsWith m.startTime m.endTime) with
       | some sh => (PhotoReply.overlapErr sh.start_time sh.end_time, state)
       | none =>
         (PhotoReply.registered (jsTrim m.name) shiftDate m.startTime m.endTime (jsTrim m.zone)
             (match m.witag with | some w => jsTrim w | none => "Нет"),
          state ++ [mkNewShift nextId groupId username (jsTrim m.name) shiftDate m.startTime
             m.endTime (jsTrim m.zone)
             (match m.witag with | some w => jsTrim w | none => "Нет")])) := by
    simp [handlePhoto, hm, hu, hc, hv]
  refine ⟨?_, ?_, ?_⟩
  · intro hnone
    have hfind : (state.filter (sameUserDateGroup username shiftDate groupId)).find?
        (overlapsWith m.startTime m.endTime) = none := by
      rw [List.find?_eq_none]
      intro x hx
      rw [List.mem_filter] at hx
      rw [hnone x hx.1 hx.2]
      simp
    rw [hred, hfind]
  · rintro ⟨sh, hsh, hudg, hov⟩
    have hsome : ((state.filter (sameUserDateGroup username shiftDate groupId)).find?
        (overlapsWith m.startTime m.endTime)).isSome := by
      rw [List.find?_isSome]
      exact ⟨sh, by rw [List.mem_filter]; exact ⟨hsh, hudg⟩, hov⟩
    obtain ⟨ex, hfind⟩ := Option.isSome_iff_exists.mp hsome
    have hmem := List.mem_of_find?_eq_some hfind
    rw [List.mem_filter] at hmem
    exact ⟨by rw [hred, hfind], ex, hmem.1, hmem.2, List.find?_some hfind, by rw [hred, hfind]⟩
  · intro ex hx
    unfold overlapsWith
    rcases hx with h | h
    · rw [h, strLt_irrefl]
      simp
    · rw [← h, strLt_irrefl]
      simp

/-- The Scenario-A shift: `07:00`-`15:00` registered as shift 1. -/
def shiftA : Shift :=
  mkNewShift 1 "g1" "ivan" "Ivan Petrov" "01.06.24" "07:00" "15:00" "Зона 12" "Нет"

/-- Witness for C1 (spec Scenario B): a second caption `14:00 23:00` for the
same user and date is rejected naming the stored `07:00`-`15:00` interval and
the repository is unchanged. -/
theorem claim_C1_witness :
    (handlePhoto "ivan" "g1" "01.06.24" "Ivan Petrov\n14:00 23:00\nЗона 12" 2 [shiftA]).2 =
      [shiftA] ∧
    (handlePhoto "ivan" "g1" "01.06.24" "Ivan Petrov\n14:00 23:00\nЗона 12" 2 [shiftA]).1 =
      PhotoReply.overlapErr "07:00" "15:00" := by
  have h := claim_C1_overlap_gate "ivan" "g1" "01.06.24" "Ivan Petrov\n14:00 23:00\nЗона 12" 2
      [shiftA]
      { name := "Ivan Petrov", startTime := "14:00", endTime := "23:00",
        zone := "Зона 12", witag := none }
      (by decide) (by decide) (by decide) (by decide)
  obtain ⟨hstate, ex, hexmem, hudg, hov, hreply⟩ :=
    h.2.1 ⟨shiftA, by decide, by decide, by decide⟩
  have hex1 : ex = shiftA := List.mem_singleton.mp hexmem
  subst hex1
  exact ⟨hstate, hreply⟩

/-! ## Code-bug evaluations and counterexamples -/

/-- Claim C3 (code bug in the JS variants): the photo handler validates only
the shape of the time tokens, never `start < end`; a caption with
`start = 15:00` after `end = 07:00` (note `"07:00" < "15:00"` as strings) is
inserted as a shift instead of being rejected with a validation error. -/
theorem claim_C3_inverted_interval_accepted :
    strLt "07:00" "15:00" = true ∧
    handlePhoto "ivan" "g1" "01.06.24" "Ivan Petrov\n15:00 07:00\nЗона 1" 1 [] =
      (PhotoReply.registered "Ivan Petrov" "01.06.24" "15:00" "07:00" "Зона 1" "Нет",
       [mkNewShift 1 "g1" "ivan" "Ivan Petrov" "01.06.24" "15:00" "07:00" "Зона 1" "Нет"]) :=
  ⟨by decide, by decide⟩

/-- Claim C4 (code bug): the caption regex is anchored only at the start, so a
caption whose valid shape is followed by a garbage line still matches — the
trailing text is silently dropped and the registration succeeds instead of
failing with a format error. -/
theorem claim_C4_trailing_garbage_accepted :
    matchCaption "Ivan Petrov\n07:00 15:00\nЗона 1\ntrailing garbage" =
      some { name := "Ivan Petrov", startTime := "07:00", endTime := "15:00",
             zone := "Зона 1", witag := none } ∧
    (handlePhoto "ivan" "g1" "01.06.24"
        "Ivan Petrov\n07:00 15:00\nЗона 1\ntrailing garbage" 1 []).1 =
      PhotoReply.registered "Ivan Petrov" "01.06.24" "07:00" "15:00" "Зона 1" "Нет" :=
  ⟨by decide, by decide⟩

/-- Claim C8 (code bug): the day-off trigger reads the dates cell with
`split(',')` but writes it back with `join('\n')`; once the cell holds any
prior content, the marker written by the first firing is not recognised by the
second firing, which appends the same absence marker again. -/
theorem claim_C8_day_off_double_mark :
    dayOffProcessRow "02.06" false "01.06" = some "01.06\n02.06 (выходной)" ∧
    dayOffProcessRow "02.06" false "01.06\n02.06 (выходной)" =
      some "01.06\n02.06 (выходной)\n02.06 (выходной)" :=
  ⟨by decide, by decide⟩

/-- The Scenario-A shift after an admin cancellation. -/
def shiftCanceled : Shift :=
  { shiftA with status := "canceled" }

/-- Counterexample to claim C2 as stated: the admin confirm handler performs
no status check, so on a shift already in the terminal state `canceled` it
reports success and rewrites the row to `completed` with recomputed worked
hours, instead of failing with a not-found/already-closed error and leaving
the row unchanged. -/
theorem claim_C2_counterexample :
    shiftCanceled.status = "canceled" ∧
    (confirm_action (some "boss") ["boss"] "g1" 1 [shiftCanceled]).1 =
      ActionReply.completedOk 1 ∧
    (confirm_action (some "boss") ["boss"] "g1" 1 [shiftCanceled]).2 =
      [{ shiftCanceled with status := "completed", worked_hours := some "8h 0m" }] :=
  ⟨rfl, by decide, by decide⟩

/-- Counterexample to claim C7 as stated: `isAdmin` does no case
normalisation — two handles that agree after lowercasing are treated
differently, so membership is not decided on the case-normalised handle. -/
theorem claim_C7_counterexample :
    jsToLowerStr (stripAt "Admin") = jsToLowerStr (stripAt "admin") ∧
    isAdmin "admin" ["admin"] = true ∧
    isAdmin "Admin" ["admin"] = false :=
  ⟨by decide, by decide, by decide⟩

/-! ## Characterisation of the auto-completion trigger -/

lemma applyUpd_of_ne (g : String) (sh r : Shift) (h : ¬(r.id = sh.id ∧ r.group_id = g)) :
    applyUpd g sh r = r := by
  unfold applyUpd
  split
  · next hcond =>
    exact absurd (by simpa using hcond) h
  · rfl

lemma applyUpd_of_match (g : String) (sh r : Shift) (h1 : r.id = sh.id) (h2 : r.group_id = g) :
    applyUpd g sh r =
      { r with status := "completed",
               worked_hours := some (calculateWorkedHours sh.start_time sh.end_time) } := by
  unfold applyUpd
  split
  · rfl
  · next hcond =>
    exact absurd (by simp [h1, h2]) hcond

lemma applyUpd_id_eq (g : String) (sh r : Shift) : (applyUpd g sh r).id = r.id := by
  unfold applyUpd
  split <;> rfl

lemma applyUpd_group_eq (g : String) (sh r : Shift) : (applyUpd g sh r).group_id = r.group_id := by
  unfold applyUpd
  split <;> rfl

lemma foldl_completeOne_eq_map (g : String) (F : List Shift) :
    ∀ st : List Shift, F.foldl (completeOne g) st =
      st.map (fun r => F.foldl (fun x sh => applyUpd g sh x) r) := by
  induction F with
  | nil =>
    intro st
    simp
  | cons a F ih =>
    intro st
    rw [List.foldl_cons]
    show F.foldl (completeOne g) (st.map (applyUpd g a)) = _
    rw [ih, List.map_map]
    rfl

lemma foldl_applyUpd_of_none (g : String) (F : List Shift) (r : Shift)
    (h : ∀ sh ∈ F, ¬(r.id = sh.id ∧ r.group_id = g)) :
    F.foldl (fun x sh => applyUpd g sh x) r = r := by
  induction F with
  | nil => rfl
  | cons a F ih =>
    rw [List.foldl_cons, applyUpd_of_ne g a r (h a (by simp))]
    exact ih (fun sh hsh => h sh (by simp [hsh]))

lemma foldl_applyUpd_fix (g : String) (F : List Shift) (x : Shift)
    (h : ∀ sh ∈ F, applyUpd g sh x = x) :
    F.foldl (fun y sh => applyUpd g sh y) x = x := by
  induction F with
  | nil => rfl
  | cons a F ih =>
    rw [List.foldl_cons, h a (by simp)]
    exact ih (fun sh hsh => h sh (by simp [hsh]))

lemma foldl_applyUpd_of_match (g : String) (F : List Shift) (r : Shift)
    (hmem : r ∈ F) (hgrp : r.group_id = g)
    (huniq : ∀ sh ∈ F, sh.id = r.id → sh = r) :
    F.foldl (fun x sh => applyUpd g sh x) r =
      { r with status := "completed",
               worked_hours := some (calculateWorkedHours r.start_time r.end_time) } := by
  induction F with
  | nil => cases hmem
  | cons a F ih =>
    rw [List.foldl_cons]
    by_cases ha : a = r
    · subst ha
      rw [applyUpd_of_match g a a rfl hgrp]
      apply foldl_applyUpd_fix
      intro sh hsh
      by_cases hs : sh = a
      · subst hs
        exact applyUpd_of_match g sh _ rfl hgrp
      · apply applyUpd_of_ne
        rintro ⟨h1, _⟩
        exact hs (huniq sh (by simp [hsh]) h1.symm)
    · have hne : ¬(r.id = a.id ∧ r.group_id = g) := by
        rintro ⟨h1, _⟩
        exact ha (huniq a (by simp) h1.symm)
      rw [applyUpd_of_ne g a r hne]
      have hmem2 : r ∈ F := by
        rcases List.mem_cons.mp hmem with h | h
        · exact absurd h.symm ha
        · exact h
      exact ih hmem2 (fun sh hsh => huniq sh (by simp [hsh]))

/-- Full characterisation of the auto-completion trigger under the primary-key
invariant (row ids are distinct): every selected row — active, same date, same
group — is completed with hours from its scheduled times; every other row is
untouched. -/
lemma autoComplete_eq (g d : String) (state : List Shift)
    (hnd : (state.map Shift.id).Nodup) :
    autoCompleteShifts g d state = state.map (fun r =>
      if activeOnDate d g r = true then
        { r with status := "completed",
                 worked_hours := some (calculateWorkedHours r.start_time r.end_time) }
      else r) := by
  unfold autoCompleteShifts
  rw [foldl_completeOne_eq_map]
  apply List.map_eq_map_iff.mpr
  intro r hr
  by_cases hact : activeOnDate d g r = true
  · rw [if_pos hact]
    apply foldl_applyUpd_of_match
    · rw [List.mem_filter]
      exact ⟨hr, hact⟩
    · unfold activeOnDate at hact
      simp only [Bool.and_eq_true, decide_eq_true_eq] at hact
      exact hact.2
    · intro sh hsh hid
      rw [List.mem_filter] at hsh
      exact List.inj_on_of_nodup_map hnd hsh.1 hr hid
  · rw [if_neg hact]
    apply foldl_applyUpd_of_none
    intro sh hsh
    rintro ⟨h1, _⟩
    rw [List.mem_filter] at hsh
    have hshr : sh = r := List.inj_on_of_nodup_map hnd hsh.1 hr h1.symm
    subst hshr
    exact hact hsh.2

/-- Claim C6: when the daily auto-completion trigger fires for a group, every
shift of that group with status `active` and the current shift date becomes
`completed` with worked hours computed from its scheduled start/end times —
`07:00`-`15:00` yields `8h 0m` — and shifts of other dates, other groups or
non-active status are not modified. -/
theorem claim_C6_auto_completion (groupId shiftDate : String) (state : List Shift)
    (hnd : (state.map Shift.id).Nodup) :
    autoCompleteShifts groupId shiftDate state = state.map (fun r =>
      if activeOnDate shiftDate groupId r = true then
        { r with status := "completed",
                 worked_hours := some (calculateWorkedHours r.start_time r.end_time) }
      else r) ∧
    calculateWorkedHours "07:00" "15:00" = "8h 0m" :=
  ⟨autoComplete_eq groupId shiftDate state hnd, by decide⟩

/-- A shift of the same group on another date. -/
def shiftOtherDate : Shift :=
  mkNewShift 2 "g1" "petr" "Petr Sidorov" "02.06.24" "07:00" "15:00" "Зона 1" "Нет"

/-- A shift of another group on the same date. -/
def shiftOtherGroup : Shift :=
  mkNewShift 3 "g2" "oleg" "Oleg Ivanov" "01.06.24" "08:00" "12:00" "Зона 2" "Нет"

/-- Witness for C6 (spec Scenario D): the trigger completes the still-active
`07:00`-`15:00` shift with `8h 0m` and leaves the other-date and other-group
shifts untouched. -/
theorem claim_C6_witness :
    ([shiftA, shiftOtherDate, shiftOtherGroup].map Shift.id).Nodup ∧
    autoCompleteShifts "g1" "01.06.24" [shiftA, shiftOtherDate, shiftOtherGroup] =
      [{ shiftA with status := "completed", worked_hours := some "8h 0m" },
       shiftOtherDate, shiftOtherGroup] := by
  have h := claim_C6_auto_completion "g1" "01.06.24" [shiftA, shiftOtherDate, shiftOtherGroup]
    (by decide)
  refine ⟨by decide, ?_⟩
  rw [h.1]
  decide

/-- Claim C2 (amended): the scheduled auto-completion selects only rows with
status `active`, so terminal shifts pass through it unchanged, and every
transition the handlers perform targets `completed` (or `canceled`); but the
admin confirm handler checks no status at all: invoked on a shift already in
a terminal state it reports success and overwrites the row to `completed`
with recomputed worked hours instead of failing with a not-found/already-closed
error and leaving the row unchanged. -/
theorem claim_C2_terminal_transitions (groupId shiftDate : String) (state : List Shift)
    (hnd : (state.map Shift.id).Nodup) (u : String) (admins : List String)
    (hadm : isAdmin u admins = true) (sh : Shift)
    (hfind : state.find? (fun r => r.id = sh.id && r.group_id = groupId) = some sh)
    (hterm : sh.status = "completed" ∨ sh.status = "canceled") :
    (autoCompleteShifts groupId shiftDate state = state.map (fun r =>
        if activeOnDate shiftDate groupId r = true then
          { r with status := "completed",
                   worked_hours := some (calculateWorkedHours r.start_time r.end_time) }
        else r)) ∧
    (confirm_action (some u) admins groupId sh.id state).1 = ActionReply.completedOk sh.id ∧
    { sh with status := "completed",
              worked_hours := some (calculateWorkedHours sh.start_time sh.end_time) } ∈
      (confirm_action (some u) admins groupId sh.id state).2 ∧
    (sh.status = "canceled" → sh ∉ (confirm_action (some u) admins groupId sh.id state).2) := by
  have hpred := List.find?_some hfind
  simp only [Bool.and_eq_true, decide_eq_true_eq] at hpred
  have hshmem : sh ∈ state := List.mem_of_find?_eq_some hfind
  have hred : confirm_action (some u) admins groupId sh.id state =
      (ActionReply.completedOk sh.id,
       state.map (fun r =>
         if r.id = sh.id && r.group_id = groupId then
           { r with status := "completed",
                    worked_hours := some (calculateWorkedHours sh.start_time sh.end_time) }
         else r)) := by
    simp [confirm_action, hadm, hfind]
  refine ⟨autoComplete_eq groupId shiftDate state hnd, by rw [hred], ?_, ?_⟩
  · rw [hred]
    refine List.mem_map.mpr ⟨sh, hshmem, ?_⟩
    simp [hpred.2]
  · intro hcanc hmemc
    rw [hred] at hmemc
    simp only [List.mem_map] at hmemc
    obtain ⟨r, _, heq⟩ := hmemc
    by_cases hcond : (r.id = sh.id && r.group_id = groupId) = true
    · rw [if_pos hcond] at heq
      have hst := congrArg Shift.status heq
      simp only at hst
      rw [hcanc] at hst
      exact absurd hst (by decide)
    · rw [if_neg hcond] at heq
      subst heq
      exact hcond (by simp [hpred.2])

/-- Witness for C2 (amended) at a concrete canceled shift: the confirm handler
reports success and the canceled row is gone from the repository, replaced by
a completed one. -/
theorem claim_C2_witness :
    (confirm_action (some "boss") ["boss"] "g1" shiftCanceled.id [shiftCanceled]).1 =
      ActionReply.completedOk shiftCanceled.id ∧
    shiftCanceled ∉ (confirm_action (some "boss") ["boss"] "g1" shiftCanceled.id
      [shiftCanceled]).2 := by
  have h := claim_C2_terminal_transitions "g1" "01.06.24" [shiftCanceled] (by decide)
    "boss" ["boss"] (by decide) shiftCanceled (by decide) (Or.inr rfl)
  exact ⟨h.2.1, h.2.2.2 rfl⟩

/-- Claim C7 (amended): `isAdmin` strips the first `@` from the handle and
tests literal, case-sensitive membership of the configured list; there is no
case normalisation, so handles differing only in case are distinct; a
non-admin invocation of the privileged confirm handler is uniformly denied
with no state change. -/
theorem claim_C7_is_admin (u : String) (admins : List String) :
    (isAdmin u admins = true ↔ stripAt u ∈ admins) ∧
    (∀ groupId : String, ∀ shiftId : Nat, ∀ state : List Shift,
       isAdmin u admins = false →
       confirm_action (some u) admins groupId shiftId state = (ActionReply.denied, state)) ∧
    isAdmin "admin" ["admin"] = true ∧ isAdmin "Admin" ["admin"] = false := by
  refine ⟨?_, ?_, by decide, by decide⟩
  · unfold isAdmin
    exact List.elem_iff
  · intro g sid st h
    simp [confirm_action, h]

/-- Witness for C7 (amended): a non-listed handle is denied by the confirm
handler and the repository is unchanged. -/
theorem claim_C7_witness :
    isAdmin "eve" ["boss"] = false ∧
    confirm_action (some "eve") ["boss"] "g1" 1 [shiftA] = (ActionReply.denied, [shiftA]) := by
  have h := claim_C7_is_admin "eve" ["boss"]
  exact ⟨by decide, h.2.1 "g1" 1 [shiftA] (by decide)⟩

/-! ## Group scoping -/

lemma filter_filter_of_imp (p q : Shift → Bool) (h : ∀ a, p a = true → q a = true) :
    ∀ l : List Shift, (l.filter q).filter p = l.filter p := by
  intro l
  induction l with
  | nil => rfl
  | cons a l ih =>
    by_cases hq : q a = true
    · rw [List.filter_cons_of_pos hq]
      by_cases hp : p a = true
      · rw [List.filter_cons_of_pos hp, List.filter_cons_of_pos hp, ih]
      · rw [List.filter_cons_of_neg (by simp [hp]), List.filter_cons_of_neg (by simp [hp]), ih]
    · have hp : ¬ p a = true := fun hp => hq (h a hp)
      rw [List.filter_cons_of_neg (by simp [hq]), List.filter_cons_of_neg (by simp [hp]), ih]

lemma find?_filter_of_imp (p q : Shift → Bool) (h : ∀ a, p a = true → q a = true) :
    ∀ l : List Shift, (l.filter q).find? p = l.find? p := by
  intro l
  induction l with
  | nil => rfl
  | cons a l ih =>
    by_cases hq : q a = true
    · rw [List.filter_cons_of_pos hq]
      by_cases hp : p a = true
      · rw [List.find?_cons_of_pos _ hp, List.find?_cons_of_pos _ hp]
      · rw [List.find?_cons_of_neg _ (by simp [hp]), List.find?_cons_of_neg _ (by simp [hp]), ih]
    · have hp : ¬ p a = true := fun hp => hq (h a hp)
      rw [List.filter_cons_of_neg (by simp [hq]), List.find?_cons_of_neg _ (by simp [hp]), ih]

/-- A map whose function leaves rows of other groups untouched and preserves
group ids does not change the other-group projection. -/
lemma filter_map_untouched (g : String) (f : Shift → Shift)
    (hpres : ∀ r, (f r).group_id = r.group_id)
    (hid : ∀ r, r.group_id ≠ g → f r = r) :
    ∀ st : List Shift, (st.map f).filter (fun r => r.group_id ≠ g) =
      st.filter (fun r => r.group_id ≠ g) := by
  intro st
  induction st with
  | nil => rfl
  | cons a st ih =>
    rw [List.map_cons]
    by_cases ha : a.group_id = g
    · rw [List.filter_cons_of_neg (by simp [hpres a, ha]),
        List.filter_cons_of_neg (by simp [ha]), ih]
    · rw [List.filter_cons_of_pos (by simp [hpres a, ha]), hid a ha,
        List.filter_cons_of_pos (by simp [ha]), ih]

/-- A group-preserving map commutes with the own-group projection. -/
lemma filter_map_same_group (g : String) (f : Shift → Shift)
    (hpres : ∀ r, (f r).group_id = r.group_id) :
    ∀ st : List Shift, (st.map f).filter (fun r => r.group_id = g) =
      (st.filter (fun r => r.group_id = g)).map f := by
  intro st
  induction st with
  | nil => rfl
  | cons a st ih =>
    rw [List.map_cons]
    by_cases ha : a.group_id = g
    · rw [List.filter_cons_of_pos (by simp [hpres a, ha]),
        List.filter_cons_of_pos (by simp [ha]), List.map_cons, ih]
    · rw [List.filter_cons_of_neg (by simp [hpres a, ha]),
        List.filter_cons_of_neg (by simp [ha]), ih]

lemma foldl_completeOne_filter_ne (g : String) (F : List Shift) :
    ∀ st : List Shift, (F.foldl (completeOne g) st).filter (fun r => r.group_id ≠ g) =
      st.filter (fun r => r.group_id ≠ g) := by
  induction F with
  | nil => intro st; rfl
  | cons a F ih =>
    intro st
    rw [List.foldl_cons, ih]
    show (st.map (applyUpd g a)).filter (fun r => r.group_id ≠ g) = _
    apply filter_map_untouched g (applyUpd g a) (applyUpd_group_eq g a)
    intro r hr
    apply applyUpd_of_ne
    rintro ⟨_, h2⟩
    exact hr h2

lemma foldl_completeOne_filter_eq (g : String) (F : List Shift) :
    ∀ st : List Shift, (F.foldl (completeOne g) st).filter (fun r => r.group_id = g) =
      F.foldl (completeOne g) (st.filter (fun r => r.group_id = g)) := by
  induction F with
  | nil => intro st; rfl
  | cons a F ih =>
    intro st
    rw [List.foldl_cons, ih, List.foldl_cons]
    show F.foldl (completeOne g) ((st.map (applyUpd g a)).filter (fun r => r.group_id = g)) = _
    rw [filter_map_same_group g _ (applyUpd_group_eq g a)]
    rfl

/-- The reply of the photo handler depends on the repository only through the
rows selected by the per-(user, date, group) query. -/
lemma handlePhoto_reply (username g shiftDate caption : String) (nextId : Nat)
    (s : List Shift) :
    (handlePhoto username g shiftDate caption nextId s).1 =
      (if username = "" then PhotoReply.noUsername
      else if caption = "" then PhotoReply.noCaption
      else match matchCaption caption with
        | none => PhotoReply.formatErr
        | some m =>
          if !(isValidTime m.startTime && isValidTime m.endTime) then PhotoReply.timeFormatErr
          else match (s.filter (sameUserDateGroup username shiftDate g)).find?
              (overlapsWith m.startTime m.endTime) with
            | some sh => PhotoReply.overlapErr sh.start_time sh.end_time
            | none => PhotoReply.registered (jsTrim m.name) shiftDate m.startTime m.endTime
                (jsTrim m.zone) (match m.witag with | some w => jsTrim w | none => "Нет")) := by
  unfold handlePhoto
  split
  · next h => simp [h]
  split
  · next h1 h2 => simp [h1, h2]
  next h1 h2 =>
    split
    · next heq => simp [h1, h2, heq]
    · next m heq =>
      simp only [h1, h2, heq, if_neg]
      split <;> try rfl
      split <;> rfl

/-- The state produced by the photo handler is either unchanged or the input
with exactly the one new row appended. -/
lemma handlePhoto_state (username g shiftDate caption : String) (nextId : Nat)
    (s : List Shift) :
    (handlePhoto username g shiftDate caption nextId s).2 = s ∨
    ∃ m : CapMatch, matchCaption caption = some m ∧
      (handlePhoto username g shiftDate caption nextId s).2 =
        s ++ [mkNewShift nextId g username (jsTrim m.name) shiftDate m.startTime m.endTime
          (jsTrim m.zone) (match m.witag with | some w => jsTrim w | none => "Нет")] := by
  unfold handlePhoto
  split
  · exact Or.inl rfl
  split
  · exact Or.inl rfl
  split
  · exact Or.inl rfl
  next m heq =>
    dsimp only
    split
    · exact Or.inl rfl
    split
    · exact Or.inl rfl
    · exact Or.inr ⟨m, heq, rfl⟩

/-- Claim C9: the modelled handlers and triggers are group-scoped.  The photo
handler's reply is unchanged when all other groups' rows are removed, and its
resulting state leaves other groups' rows exactly as they were; likewise for
the admin confirm handler; the auto-completion trigger never touches another
group's rows, and its effect on its own group's rows is the same whether or
not other groups' rows are present. -/
theorem claim_C9_group_scoping (g username shiftDate caption : String) (nextId : Nat)
    (uo : Option String) (admins : List String) (shiftId : Nat) (state : List Shift) :
    ((handlePhoto username g shiftDate caption nextId state).1 =
      (handlePhoto username g shiftDate caption nextId
        (state.filter (fun r => r.group_id = g))).1) ∧
    ((handlePhoto username g shiftDate caption nextId state).2.filter
        (fun r => r.group_id ≠ g) = state.filter (fun r => r.group_id ≠ g)) ∧
    ((confirm_action uo admins g shiftId state).1 =
      (confirm_action uo admins g shiftId (state.filter (fun r => r.group_id = g))).1) ∧
    ((confirm_action uo admins g shiftId state).2.filter (fun r => r.group_id ≠ g) =
      state.filter (fun r => r.group_id ≠ g)) ∧
    ((autoCompleteShifts g shiftDate state).filter (fun r => r.group_id ≠ g) =
      state.filter (fun r => r.group_id ≠ g)) ∧
    ((autoCompleteShifts g shiftDate state).filter (fun r => r.group_id = g) =
      autoCompleteShifts g shiftDate (state.filter (fun r => r.group_id = g))) := by
  have hudg : ∀ a : Shift, sameUserDateGroup username shiftDate g a = true →
      decide (a.group_id = g) = true := by
    intro a ha
    unfold sameUserDateGroup at ha
    simp only [Bool.and_eq_true, decide_eq_true_eq] at ha
    simp [ha.2]
  have hidg : ∀ a : Shift, (decide (a.id = shiftId) && decide (a.group_id = g)) = true →
      decide (a.group_id = g) = true := by
    intro a ha
    simp only [Bool.and_eq_true, decide_eq_true_eq] at ha
    simp [ha.2]
  have hff := filter_filter_of_imp _ _ hudg state
  have hfind := find?_filter_of_imp _ _ hidg state
  refine ⟨?_, ?_, ?_, ?_, ?_, ?_⟩
  · rw [handlePhoto_reply, handlePhoto_reply]
    simp only [hff]
  · rcases handlePhoto_state username g shiftDate caption nextId state with h | ⟨m, _, h⟩
    · rw [h]
    · rw [h, List.filter_append]
      simp [mkNewShift]
  · unfold confirm_action
    cases uo with
    | none => rfl
    | some u =>
      by_cases hadm : isAdmin u admins = true
      · simp only [hadm, hfind]
        split <;> try rfl
        split <;> rfl
      · have h2 : isAdmin u admins = false := by
          cases h : isAdmin u admins
          · rfl
          · exact absurd h hadm
        simp only [h2]
        rfl
  · unfold confirm_action
    cases uo with
    | none => rfl
    | some u =>
      by_cases hadm : isAdmin u admins = true
      · simp only [hadm]
        cases hf : state.find? (fun r => r.id = shiftId && r.group_id = g) with
        | none =>
          simp only [Bool.not_true, Bool.false_eq_true, if_false, hf]
        | some sh =>
          simp only [Bool.not_true, Bool.false_eq_true, if_false, hf]
          apply filter_map_untouched g (fun r =>
            if (decide (r.id = shiftId) && decide (r.group_id = g)) = true then
              { r with status := "completed",
                       worked_hours := some (calculateWorkedHours sh.start_time sh.end_time) }
            else r)
          · intro r
            split <;> rfl
          · intro r hr
            rw [if_neg]
            simp only [Bool.and_eq_true, decide_eq_true_eq, not_and]
            intro _
            exact hr
      · have h2 : isAdmin u admins = false := by
          cases h : isAdmin u admins
          · rfl
          · exact absurd h hadm
        simp only [h2]
        rfl
  · unfold autoCompleteShifts
    exact foldl_completeOne_filter_ne g _ state
  · unfold autoCompleteShifts
    rw [foldl_completeOne_filter_eq, filter_filter_of_imp _ _ (by
      intro a ha
      unfold activeOnDate at ha
      simp only [Bool.and_eq_true, decide_eq_true_eq] at ha
      simp [ha.2]) state]

end Ugm
